import Mathlib

/-!
Shallow embedding of `src/align/adaptor_trim.py` (adaptor trimming for
short-read sequencing data).

Sequences are embedded as `List Char` (Python strings).  Python's
`str.find`/`str.rfind` return the lowest / highest index of an occurrence
and `-1` when there is none; slicing `s[a:b]` clamps indices and resolves
negative indices relative to the end of the string.  Both are modelled
exactly (`pyFind`, `pyRFind`, `pySlice`).

The local aligner (`Bio.pairwise2.align.localms`) is an external library,
not code of this repository; `trim_adaptor` is therefore parameterised by
an abstract `Aligner` returning either nothing (the empty list of
alignments) or one alignment: the two gap-padded aligned strings together
with the `start`/`end` offsets of the locally aligned span.  Properties
the real aligner guarantees (both aligned strings have the same length;
deleting the gap characters from the aligned read restores the read) are
stated as explicit predicates on the aligner and assumed only where a
claim needs them.

The Python match-counting loop indexes the adaptor-side region at every
position of the read-side region and hence raises `IndexError` when the
read-side region is longer; `countMatches` returns `Option Nat`, with
`none` modelling that exception, and consequently `trim_adaptor` returns
`Option (List Char)`.
-/

namespace AdaptorTrim

/-- The gap character used by the Python code (`gap_char = '-'`). -/
def gap_char : Char := '-'

/-- First index `i ≤ s.length` at which `sub` occurs as a prefix of
`s.drop i`, if any.  Helper for the model of Python `str.find`. -/
def findIdx0 (s sub : List Char) : Option Nat :=
  (List.range (s.length + 1)).find? (fun i => sub.isPrefixOf (s.drop i))

/-- Last index `i ≤ s.length` at which `sub` occurs as a prefix of
`s.drop i`, if any.  Helper for the model of Python `str.rfind`. -/
def rfindIdx0 (s sub : List Char) : Option Nat :=
  (List.range (s.length + 1)).reverse.find? (fun i => sub.isPrefixOf (s.drop i))

/-- Python `s.find(sub)`: lowest index of an occurrence, `-1` if absent. -/
def pyFind (s sub : List Char) : Int :=
  match findIdx0 s sub with
  | some i => (i : Int)
  | none => -1

/-- Python `s.rfind(sub)`: highest index of an occurrence, `-1` if absent. -/
def pyRFind (s sub : List Char) : Int :=
  match rfindIdx0 s sub with
  | some i => (i : Int)
  | none => -1

/-- Normalisation of a Python slice index against a string of length
`len`: a negative index counts from the end (clamped at `0`), a
non-negative one is clamped at `len`. -/
def sliceNorm (len : Nat) (k : Int) : Nat :=
  if k < 0 then ((len : Int) + k).toNat else min k.toNat len

/-- Python slice `s[a:b]`. -/
def pySlice (s : List Char) (a b : Int) : List Char :=
  (s.take (sliceNorm s.length b)).drop (sliceNorm s.length a)

/-- Embedding of `_remove_adaptor(seq, region, right_side)`: cut at the
first occurrence of `region` (keep what is strictly before it) when
trimming the right side, and at the last occurrence (keep what is
strictly past its end) when trimming the left side.  Exactly as in the
Python code, a failed `find`/`rfind` yields position `-1`, which then
flows into the slice. -/
def remove_adaptor (seq region : List Char) (right_side : Bool) : List Char :=
  if right_side then
    pySlice seq 0 (pyFind seq region)
  else
    pySlice seq (pyRFind seq region + (region.length : Int)) (seq.length : Int)

/-- One local alignment as produced by `pairwise2.align.localms` with
`one_alignment_only=True`: the gap-padded aligned read `seq_a`, the
gap-padded aligned adaptor `adaptor_a`, and the start/end offsets of the
aligned span.  The numeric score is unused by the trimming code and
omitted. -/
structure AlignResult where
  seq_a : List Char
  adaptor_a : List Char
  start : Nat
  stop : Nat

/-- Abstract local aligner: `none` models the empty alignment list. -/
abbrev Aligner := List Char → List Char → Option AlignResult

/-- The real aligner pads both aligned strings to a common length. -/
def AlignerPadsEqually (align : Aligner) : Prop :=
  ∀ s a r, align s a = some r → r.seq_a.length = r.adaptor_a.length

/-- Deleting the gap characters from the aligned read restores the read
itself (the aligned read is the read with gaps inserted). -/
def AlignerRestoresSeq (align : Aligner) : Prop :=
  ∀ s a r, align s a = some r → r.seq_a.filter (fun c => c ≠ gap_char) = s

/-- `region.replace(gap_char, "")`: delete every gap character. -/
def removeGaps (s : List Char) : List Char :=
  s.filter (fun c => c ≠ gap_char)

/-- The matched regions computed by `trim_adaptor` before error counting:
exact-substring fast path, else the aligner's span, else two empty
strings.  Returns `(seq_region, adapt_region)`. -/
def trimRegions (align : Aligner) (seq adaptor : List Char) :
    List Char × List Char :=
  let exact_pos := pyFind seq adaptor
  if 0 ≤ exact_pos then
    (pySlice seq exact_pos (exact_pos + (adaptor.length : Int)), adaptor)
  else
    match align seq adaptor with
    | none => ([], [])
    | some r =>
        (pySlice r.seq_a (r.start : Int) (r.stop : Int),
         pySlice r.adaptor_a (r.start : Int) (r.stop : Int))

/-- The Python loop
`sum((1 if s == adapt_region[i] else 0) for i, s in enumerate(seq_region))`:
it walks the read-side region and indexes the adaptor-side region at the
same position; `none` models the `IndexError` raised when the read-side
region is the longer one.  Positions of `adapt` beyond the length of the
read-side region are never inspected. -/
def countMatches : List Char → List Char → Option Nat
  | [], _ => some 0
  | _ :: _, [] => none
  | s :: ss, a :: ar =>
      (countMatches ss ar).map (fun n => (if s = a then 1 else 0) + n)

/-- Embedding of `trim_adaptor(seq, adaptor, num_errors, right_side)` for
string inputs, parameterised by the external aligner. -/
def trim_adaptor (align : Aligner) (seq adaptor : List Char)
    (num_errors : Int) (right_side : Bool) : Option (List Char) :=
  match countMatches (trimRegions align seq adaptor).1
      (trimRegions align seq adaptor).2 with
  | none => none
  | some nmatch =>
      if ((adaptor.length : Int) - (nmatch : Int)) > num_errors then
        some seq
      else
        some (remove_adaptor seq
          (removeGaps (trimRegions align seq adaptor).1) right_side)

/-- Embedding of `trim_adaptor_w_qual`: `none` models a failed `assert`
(the length precondition or the length postcondition) as well as an
exception escaping from `trim_adaptor`. -/
def trim_adaptor_w_qual (align : Aligner) (seq qual adaptor : List Char)
    (num_errors : Int) (right_side : Bool) :
    Option (List Char × List Char) :=
  if seq.length = qual.length then
    match trim_adaptor align seq adaptor num_errors right_side with
    | none => none
    | some tseq =>
        if tseq.length = (pySlice qual
            (if right_side then pyFind seq tseq else pyRFind seq tseq)
            ((if right_side then pyFind seq tseq else pyRFind seq tseq) +
              (tseq.length : Int))).length then
          some (tseq, pySlice qual
            (if right_side then pyFind seq tseq else pyRFind seq tseq)
            ((if right_side then pyFind seq tseq else pyRFind seq tseq) +
              (tseq.length : Int)))
        else none
  else none

/-- A parsed FASTQ record as the batch driver sees it: identifier,
sequence, and optional per-letter quality scores. -/
structure FastqRecord where
  recId : List Char
  recSeq : List Char
  quals : Option (List Char)

/-- Per-record behaviour of `main`'s loop body: trim with the default
right side; emit a record (qualities cleared, sequence replaced) exactly
when `0 < len(trim) < len(rec)`, else emit nothing. -/
def processRecord (align : Aligner) (adaptor : List Char)
    (num_errors : Int) (rec : FastqRecord) : Option FastqRecord :=
  match trim_adaptor align rec.recSeq adaptor num_errors true with
  | none => none
  | some t =>
      if 0 < t.length ∧ t.length < rec.recSeq.length then
        some { recId := rec.recId, recSeq := t, quals := none }
      else none

/-- A trivial aligner that never finds an alignment; used to instantiate
theorems at concrete inputs. -/
def noAligner : Aligner := fun _ _ => none

/-- `sub` occurs in `s` at index `i`: the occurrence fits inside `s` and
`sub` starts exactly at position `i`. -/
def occursAt (s sub : List Char) (i : Nat) : Prop :=
  i + sub.length ≤ s.length ∧ sub <+: s.drop i

instance (s sub : List Char) (i : Nat) : Decidable (occursAt s sub i) := by
  unfold occursAt; infer_instance

theorem isPrefixOf_eq_true {l₁ l₂ : List Char} :
    l₁.isPrefixOf l₂ = true ↔ l₁ <+: l₂ := List.isPrefixOf_iff_prefix

theorem occ_of_mem_range {s sub : List Char} {i : Nat}
    (hi : i ≤ s.length) (h : sub <+: s.drop i) : occursAt s sub i := by
  refine ⟨?_, h⟩
  have := h.length_le
  rw [List.length_drop] at this
  omega

theorem occursAt_le {s sub : List Char} {i : Nat} (h : occursAt s sub i) :
    i ≤ s.length := by
  have := h.1; omega

theorem infix_iff_occ (s sub : List Char) :
    sub <:+: s ↔ ∃ i, occursAt s sub i := by
  constructor
  · rintro ⟨u, v, huv⟩
    refine ⟨u.length, occ_of_mem_range ?_ ?_⟩
    · rw [← huv]; simp
    · rw [← huv, List.append_assoc, List.drop_left]
      exact ⟨v, rfl⟩
  · rintro ⟨i, hlen, t, ht⟩
    refine ⟨s.take i, t, ?_⟩
    rw [List.append_assoc, ht, List.take_append_drop]

theorem sliceNorm_le (len : Nat) (k : Int) : sliceNorm len k ≤ len := by
  unfold sliceNorm
  split
  · omega
  · omega

theorem sliceNorm_ofNat {len k : Nat} (h : k ≤ len) :
    sliceNorm len (k : Int) = k := by
  unfold sliceNorm
  rw [if_neg (by omega)]
  simp [Nat.min_eq_left h]

theorem sliceNorm_zero (len : Nat) : sliceNorm len 0 = 0 :=
  sliceNorm_ofNat (Nat.zero_le len)

theorem sliceNorm_length (len : Nat) : sliceNorm len (len : Int) = len :=
  sliceNorm_ofNat le_rfl

theorem pySlice_zero_left (s : List Char) (b : Int) :
    pySlice s 0 b = s.take (sliceNorm s.length b) := by
  unfold pySlice
  rw [sliceNorm_zero, List.drop_zero]

theorem pySlice_zero_nat {s : List Char} {i : Nat} (hi : i ≤ s.length) :
    pySlice s 0 (i : Int) = s.take i := by
  rw [pySlice_zero_left, sliceNorm_ofNat hi]

theorem pySlice_right_length (s : List Char) (a : Int) :
    pySlice s a (s.length : Int) = s.drop (sliceNorm s.length a) := by
  unfold pySlice
  rw [sliceNorm_length, List.take_length]

theorem pySlice_length (s : List Char) (a b : Int) :
    (pySlice s a b).length = sliceNorm s.length b - sliceNorm s.length a := by
  unfold pySlice
  rw [List.length_drop, List.length_take,
    Nat.min_eq_left (sliceNorm_le s.length b)]

theorem pySlice_nat_length {s : List Char} {a b : Nat}
    (hb : b ≤ s.length) :
    (pySlice s (a : Int) (b : Int)).length = b - a := by
  rw [pySlice_length, sliceNorm_ofNat hb]
  unfold sliceNorm
  rw [if_neg (by omega)]
  simp
  omega

theorem pySlice_infix (s : List Char) (a b : Int) : pySlice s a b <:+: s := by
  unfold pySlice
  have h₁ : (s.take (sliceNorm s.length b)).drop (sliceNorm s.length a) <:+
      s.take (sliceNorm s.length b) :=
    ⟨(s.take (sliceNorm s.length b)).take (sliceNorm s.length a),
      List.take_append_drop _ _⟩
  have h₂ : s.take (sliceNorm s.length b) <+: s :=
    ⟨s.drop (sliceNorm s.length b), List.take_append_drop _ _⟩
  exact h₁.isInfix.trans h₂.isInfix

theorem countMatches_isSome_iff :
    ∀ s a : List Char, (countMatches s a).isSome ↔ s.length ≤ a.length := by
  intro s
  induction s with
  | nil => intro a; simp [countMatches]
  | cons x xs ih =>
      intro a
      cases a with
      | nil => simp [countMatches]
      | cons y ys =>
          have hys := ih ys
          cases hcm : countMatches xs ys with
          | none =>
              rw [hcm] at hys
              simp only [countMatches, hcm, List.length_cons, Option.map_none']
              simp only [Option.isSome_none, Bool.false_eq_true, false_iff] at hys ⊢
              omega
          | some m =>
              rw [hcm] at hys
              simp only [countMatches, hcm, List.length_cons, Option.map_some']
              simp only [Option.isSome_some, true_iff] at hys ⊢
              omega

theorem countMatches_self : ∀ l : List Char, countMatches l l = some l.length := by
  intro l
  induction l with
  | nil => rfl
  | cons x xs ih => simp [countMatches, ih, Nat.add_comm]

theorem countMatches_append_of_le :
    ∀ sr ar extra : List Char, sr.length ≤ ar.length →
      countMatches sr (ar ++ extra) = countMatches sr ar := by
  intro sr
  induction sr with
  | nil => intro ar extra _; rfl
  | cons x xs ih =>
      intro ar extra h
      cases ar with
      | nil => simp at h
      | cons y ys =>
          simp only [List.cons_append, countMatches, List.append_eq]
          rw [ih ys extra (by simpa using h)]

theorem find_range_none {p : Nat → Bool} {n : Nat}
    (h : (List.range n).find? p = none) : ∀ j < n, p j = false := by
  intro j hj
  have := List.find?_eq_none.mp h j (List.mem_range.mpr hj)
  simpa using this

theorem find_range_least {p : Nat → Bool} :
    ∀ {n i : Nat}, (List.range n).find? p = some i →
      p i = true ∧ ∀ j < i, p j = false := by
  intro n
  induction n with
  | zero => intro i h; simp [List.range_zero] at h
  | succ n ih =>
      intro i h
      rw [List.range_succ, List.find?_append] at h
      cases hfl : (List.range n).find? p with
      | some k =>
          rw [hfl] at h
          obtain rfl : k = i := by simpa [Option.or] using h
          exact ih hfl
      | none =>
          rw [hfl] at h
          simp only [Option.or] at h
          cases hfn : p n with
          | true =>
              rw [List.find?_cons_of_pos _ hfn] at h
              obtain rfl : n = i := by simpa using h
              exact ⟨hfn, find_range_none hfl⟩
          | false =>
              rw [List.find?_cons_of_neg _ (by simp [hfn])] at h
              simp [List.find?_nil] at h

theorem rfind_range_greatest {p : Nat → Bool} :
    ∀ {n i : Nat}, (List.range n).reverse.find? p = some i →
      p i = true ∧ i < n ∧ ∀ j, i < j → j < n → p j = false := by
  intro n
  induction n with
  | zero => intro i h; simp [List.range_zero] at h
  | succ n ih =>
      intro i h
      rw [List.range_succ, List.reverse_append, List.reverse_cons,
        List.reverse_nil, List.nil_append, List.cons_append,
        List.nil_append] at h
      cases hfn : p n with
      | true =>
          rw [List.find?_cons_of_pos _ hfn] at h
          obtain rfl : n = i := by simpa using h
          exact ⟨hfn, by omega, fun j h₁ h₂ => by omega⟩
      | false =>
          rw [List.find?_cons_of_neg _ (by simp [hfn])] at h
          obtain ⟨hpi, hin, hmax⟩ := ih h
          refine ⟨hpi, by omega, fun j h₁ h₂ => ?_⟩
          rcases Nat.lt_succ_iff_lt_or_eq.mp h₂ with h₃ | rfl
          · exact hmax j h₁ h₃
          · exact hfn

theorem findIdx0_eq_some {s sub : List Char} {i : Nat}
    (h : findIdx0 s sub = some i) :
    occursAt s sub i ∧ ∀ j, occursAt s sub j → i ≤ j := by
  obtain ⟨hpi, hmin⟩ := find_range_least h
  have hi : i ≤ s.length := by
    have := List.mem_of_find?_eq_some h
    have := List.mem_range.mp this
    omega
  refine ⟨occ_of_mem_range hi (isPrefixOf_eq_true.mp hpi), fun j hj => ?_⟩
  by_contra hlt
  have hji : j < i := by omega
  have hfalse := hmin j hji
  have hb : sub.isPrefixOf (s.drop j) = true := isPrefixOf_eq_true.mpr hj.2
  simp [hb] at hfalse

theorem findIdx0_eq_none {s sub : List Char}
    (h : findIdx0 s sub = none) : ∀ j, ¬ occursAt s sub j := by
  intro j hj
  have hjlen : j ≤ s.length := occursAt_le hj
  have hfalse := find_range_none (p := fun i => sub.isPrefixOf (s.drop i)) h j (by omega)
  have hb : sub.isPrefixOf (s.drop j) = true := isPrefixOf_eq_true.mpr hj.2
  simp [hb] at hfalse

theorem findIdx0_isSome_of_occ {s sub : List Char} {i : Nat}
    (h : occursAt s sub i) : (findIdx0 s sub).isSome := by
  cases hf : findIdx0 s sub with
  | none => exact absurd h (findIdx0_eq_none hf i)
  | some k => rfl

theorem rfindIdx0_eq_some {s sub : List Char} {i : Nat}
    (h : rfindIdx0 s sub = some i) :
    occursAt s sub i ∧ ∀ j, occursAt s sub j → j ≤ i := by
  obtain ⟨hpi, hin, hmax⟩ := rfind_range_greatest h
  refine ⟨occ_of_mem_range (by omega) (isPrefixOf_eq_true.mp hpi),
    fun j hj => ?_⟩
  by_contra hlt
  have hjlen : j ≤ s.length := occursAt_le hj
  have hfalse := hmax j (by omega) (by omega)
  have hb : sub.isPrefixOf (s.drop j) = true := isPrefixOf_eq_true.mpr hj.2
  simp [hb] at hfalse

theorem rfindIdx0_eq_none {s sub : List Char}
    (h : rfindIdx0 s sub = none) : ∀ j, ¬ occursAt s sub j := by
  intro j hj
  have hjlen : j ≤ s.length := occursAt_le hj
  have hmem : j ∈ (List.range (s.length + 1)).reverse := by
    rw [List.mem_reverse, List.mem_range]; omega
  have hfalse := List.find?_eq_none.mp h j hmem
  have hb : sub.isPrefixOf (s.drop j) = true := isPrefixOf_eq_true.mpr hj.2
  simp [hb] at hfalse

theorem rfindIdx0_isSome_of_occ {s sub : List Char} {i : Nat}
    (h : occursAt s sub i) : (rfindIdx0 s sub).isSome := by
  cases hf : rfindIdx0 s sub with
  | none => exact absurd h (rfindIdx0_eq_none hf i)
  | some k => rfl

theorem pyFind_eq_some {s sub : List Char} {i : Nat}
    (h : findIdx0 s sub = some i) : pyFind s sub = (i : Int) := by
  unfold pyFind; rw [h]

theorem pyFind_eq_neg {s sub : List Char}
    (h : findIdx0 s sub = none) : pyFind s sub = -1 := by
  unfold pyFind; rw [h]

theorem pyRFind_eq_some {s sub : List Char} {i : Nat}
    (h : rfindIdx0 s sub = some i) : pyRFind s sub = (i : Int) := by
  unfold pyRFind; rw [h]

theorem pyFind_nonneg_iff {s sub : List Char} :
    0 ≤ pyFind s sub ↔ sub <:+: s := by
  constructor
  · intro h
    cases hf : findIdx0 s sub with
    | none => rw [pyFind_eq_neg hf] at h; omega
    | some i =>
        exact (infix_iff_occ s sub).mpr ⟨i, (findIdx0_eq_some hf).1⟩
  · intro h
    obtain ⟨i, hi⟩ := (infix_iff_occ s sub).mp h
    have := findIdx0_isSome_of_occ hi
    obtain ⟨k, hk⟩ := Option.isSome_iff_exists.mp this
    rw [pyFind_eq_some hk]
    omega

theorem pySlice_nat {s : List Char} {a b : Nat}
    (ha : a ≤ s.length) (hb : b ≤ s.length) :
    pySlice s (a : Int) (b : Int) = (s.take b).drop a := by
  unfold pySlice
  rw [sliceNorm_ofNat ha, sliceNorm_ofNat hb]

theorem take_drop_of_occ {s sub : List Char} {i : Nat}
    (h : occursAt s sub i) : (s.take (i + sub.length)).drop i = sub := by
  rw [List.drop_take]
  have : i + sub.length - i = sub.length := by omega
  rw [this]
  obtain ⟨t, ht⟩ := h.2
  rw [← ht, List.take_left]

theorem trimRegions_of_occ (align : Aligner) {seq adaptor : List Char}
    (h : adaptor <:+: seq) :
    trimRegions align seq adaptor = (adaptor, adaptor) := by
  obtain ⟨i, hi⟩ := (infix_iff_occ seq adaptor).mp h
  obtain ⟨k, hk⟩ := Option.isSome_iff_exists.mp (findIdx0_isSome_of_occ hi)
  have hkocc : occursAt seq adaptor k := (findIdx0_eq_some hk).1
  unfold trimRegions
  rw [pyFind_eq_some hk, if_pos (by omega)]
  have hcast : (k : Int) + (adaptor.length : Int) = ((k + adaptor.length : Nat) : Int) := by
    push_cast; ring
  rw [hcast, pySlice_nat (occursAt_le hkocc) hkocc.1, take_drop_of_occ hkocc]

theorem trimRegions_of_no_align (align : Aligner) {seq adaptor : List Char}
    (h : ¬ adaptor <:+: seq) (ha : align seq adaptor = none) :
    trimRegions align seq adaptor = ([], []) := by
  unfold trimRegions
  have hneg : pyFind seq adaptor < 0 := by
    by_contra hc
    exact h (pyFind_nonneg_iff.mp (by omega))
  rw [if_neg (by omega), ha]

theorem trimRegions_of_align {align : Aligner} {seq adaptor : List Char}
    {r : AlignResult} (h : ¬ adaptor <:+: seq)
    (ha : align seq adaptor = some r) :
    trimRegions align seq adaptor =
      (pySlice r.seq_a (r.start : Int) (r.stop : Int),
       pySlice r.adaptor_a (r.start : Int) (r.stop : Int)) := by
  unfold trimRegions
  have hneg : pyFind seq adaptor < 0 := by
    by_contra hc
    exact h (pyFind_nonneg_iff.mp (by omega))
  rw [if_neg (by omega), ha]

theorem pySlice_length_congr {s₁ s₂ : List Char}
    (h : s₁.length = s₂.length) (a b : Int) :
    (pySlice s₁ a b).length = (pySlice s₂ a b).length := by
  rw [pySlice_length, pySlice_length, h]

theorem trimRegions_length_eq (align : Aligner)
    (hpad : AlignerPadsEqually align) (seq adaptor : List Char) :
    (trimRegions align seq adaptor).1.length =
      (trimRegions align seq adaptor).2.length := by
  by_cases hocc : adaptor <:+: seq
  · rw [trimRegions_of_occ align hocc]
  · cases ha : align seq adaptor with
    | none => rw [trimRegions_of_no_align align hocc ha]
    | some r =>
        rw [trimRegions_of_align hocc ha]
        exact pySlice_length_congr (hpad seq adaptor r ha) _ _

theorem trim_eval {align : Aligner} {seq adaptor : List Char}
    {num_errors : Int} {right_side : Bool} {m : Nat}
    (hm : countMatches (trimRegions align seq adaptor).1
      (trimRegions align seq adaptor).2 = some m) :
    trim_adaptor align seq adaptor num_errors right_side =
      if ((adaptor.length : Int) - (m : Int)) > num_errors then some seq
      else some (remove_adaptor seq
        (removeGaps (trimRegions align seq adaptor).1) right_side) := by
  unfold trim_adaptor
  rw [hm]

theorem trim_isSome (align : Aligner) (hpad : AlignerPadsEqually align)
    (seq adaptor : List Char) (num_errors : Int) (right_side : Bool) :
    ∃ t, trim_adaptor align seq adaptor num_errors right_side = some t := by
  have hlen := trimRegions_length_eq align hpad seq adaptor
  have hsome := (countMatches_isSome_iff _ _).mpr (le_of_eq hlen)
  obtain ⟨m, hm⟩ := Option.isSome_iff_exists.mp hsome
  rw [trim_eval hm]
  by_cases hcond : ((adaptor.length : Int) - (m : Int)) > num_errors
  · exact ⟨seq, by rw [if_pos hcond]⟩
  · exact ⟨_, by rw [if_neg hcond]⟩

theorem remove_right_of_occ {seq region : List Char}
    (h : ∃ i, occursAt seq region i) :
    ∃ i, occursAt seq region i ∧ (∀ j, occursAt seq region j → i ≤ j) ∧
      remove_adaptor seq region true = seq.take i := by
  obtain ⟨i₀, hi₀⟩ := h
  obtain ⟨i, hi⟩ := Option.isSome_iff_exists.mp (findIdx0_isSome_of_occ hi₀)
  obtain ⟨hocc, hmin⟩ := findIdx0_eq_some hi
  refine ⟨i, hocc, hmin, ?_⟩
  unfold remove_adaptor
  rw [if_pos rfl, pyFind_eq_some hi, pySlice_zero_nat (occursAt_le hocc)]

theorem remove_left_of_occ {seq region : List Char}
    (h : ∃ i, occursAt seq region i) :
    ∃ i, occursAt seq region i ∧ (∀ j, occursAt seq region j → j ≤ i) ∧
      remove_adaptor seq region false = seq.drop (i + region.length) := by
  obtain ⟨i₀, hi₀⟩ := h
  obtain ⟨i, hi⟩ := Option.isSome_iff_exists.mp (rfindIdx0_isSome_of_occ hi₀)
  obtain ⟨hocc, hmax⟩ := rfindIdx0_eq_some hi
  refine ⟨i, hocc, hmax, ?_⟩
  unfold remove_adaptor
  rw [if_neg (by simp), pyRFind_eq_some hi]
  have hcast : (i : Int) + (region.length : Int) =
      ((i + region.length : Nat) : Int) := by push_cast; ring
  rw [hcast, pySlice_right_length, sliceNorm_ofNat hocc.1]

theorem trim_none {align : Aligner} {seq adaptor : List Char}
    {num_errors : Int} {right_side : Bool}
    (hm : countMatches (trimRegions align seq adaptor).1
      (trimRegions align seq adaptor).2 = none) :
    trim_adaptor align seq adaptor num_errors right_side = none := by
  unfold trim_adaptor
  rw [hm]

theorem trim_right_shape {align : Aligner} {seq adaptor : List Char}
    {num_errors : Int} {t : List Char}
    (h : trim_adaptor align seq adaptor num_errors true = some t) :
    ∃ k, t = seq.take k := by
  cases hm : countMatches (trimRegions align seq adaptor).1
      (trimRegions align seq adaptor).2 with
  | none => rw [trim_none hm] at h; exact absurd h (by simp)
  | some m =>
      rw [trim_eval hm] at h
      by_cases hcond : ((adaptor.length : Int) - (m : Int)) > num_errors
      · rw [if_pos hcond] at h
        exact ⟨seq.length, by
          rw [List.take_length]; exact (Option.some_inj.mp h).symm⟩
      · rw [if_neg hcond] at h
        have ht : t = remove_adaptor seq
            (removeGaps (trimRegions align seq adaptor).1) true :=
          (Option.some_inj.mp h).symm
        unfold remove_adaptor at ht
        rw [if_pos rfl, pySlice_zero_left] at ht
        exact ⟨_, ht⟩

theorem trim_left_shape {align : Aligner} {seq adaptor : List Char}
    {num_errors : Int} {t : List Char}
    (h : trim_adaptor align seq adaptor num_errors false = some t) :
    ∃ k, k ≤ seq.length ∧ t = seq.drop k := by
  cases hm : countMatches (trimRegions align seq adaptor).1
      (trimRegions align seq adaptor).2 with
  | none => rw [trim_none hm] at h; exact absurd h (by simp)
  | some m =>
      rw [trim_eval hm] at h
      by_cases hcond : ((adaptor.length : Int) - (m : Int)) > num_errors
      · rw [if_pos hcond] at h
        exact ⟨0, Nat.zero_le _, by
          rw [List.drop_zero]; exact (Option.some_inj.mp h).symm⟩
      · rw [if_neg hcond] at h
        have ht : t = remove_adaptor seq
            (removeGaps (trimRegions align seq adaptor).1) false :=
          (Option.some_inj.mp h).symm
        unfold remove_adaptor at ht
        rw [if_neg (by simp), pySlice_right_length] at ht
        exact ⟨_, sliceNorm_le _ _, ht⟩

theorem removeGaps_eq_self {l : List Char} (h : gap_char ∉ l) :
    removeGaps l = l := by
  unfold removeGaps
  rw [List.filter_eq_self]
  intro a ha
  rw [decide_eq_true_eq]
  exact fun heq => h (heq ▸ ha)

theorem removeGaps_region_infix (align : Aligner)
    (hres : AlignerRestoresSeq align) {seq : List Char}
    (adaptor : List Char) (hseq : gap_char ∉ seq) :
    removeGaps (trimRegions align seq adaptor).1 <:+: seq := by
  by_cases hocc : adaptor <:+: seq
  · rw [trimRegions_of_occ align hocc]
    have hgap : gap_char ∉ adaptor := fun hmem => hseq (hocc.subset hmem)
    rw [removeGaps_eq_self hgap]
    exact hocc
  · cases ha : align seq adaptor with
    | none =>
        rw [trimRegions_of_no_align align hocc ha]
        exact ⟨[], seq, by simp [removeGaps]⟩
    | some r =>
        rw [trimRegions_of_align hocc ha]
        have h₁ : pySlice r.seq_a (r.start : Int) (r.stop : Int) <:+: r.seq_a :=
          pySlice_infix _ _ _
        have h₂ := h₁.filter (fun c => decide (c ≠ gap_char))
        unfold AlignerRestoresSeq at hres
        rw [hres seq adaptor r ha] at h₂
        exact h₂

theorem occ_take_zero (s : List Char) (k : Nat) : occursAt s (s.take k) 0 := by
  refine ⟨?_, ?_⟩
  · rw [List.length_take]; omega
  · rw [List.drop_zero]; exact ⟨s.drop k, List.take_append_drop k s⟩

theorem occ_drop_self {s : List Char} {k : Nat} (hk : k ≤ s.length) :
    occursAt s (s.drop k) k := by
  refine ⟨?_, ⟨[], List.append_nil _⟩⟩
  rw [List.length_drop]; omega

theorem qual_slice_length {seq qual tseq : List Char} {i : Nat}
    (hql : seq.length = qual.length) (hocc : occursAt seq tseq i) :
    (pySlice qual (i : Int) ((i : Int) + (tseq.length : Int))).length =
      tseq.length := by
  have hcast : (i : Int) + (tseq.length : Int) =
      ((i + tseq.length : Nat) : Int) := by push_cast; ring
  rw [hcast, pySlice_nat_length (by rw [← hql]; exact hocc.1)]
  omega

theorem wqual_eval {align : Aligner} {seq qual adaptor : List Char}
    {num_errors : Int} {right_side : Bool}
    (hql : seq.length = qual.length) {tseq : List Char}
    (ht : trim_adaptor align seq adaptor num_errors right_side = some tseq) :
    ∃ i : Nat, occursAt seq tseq i ∧
      (if right_side then pyFind seq tseq else pyRFind seq tseq) = (i : Int) ∧
      trim_adaptor_w_qual align seq qual adaptor num_errors right_side =
        some (tseq, pySlice qual (i : Int) ((i : Int) + (tseq.length : Int))) ∧
      (pySlice qual (i : Int) ((i : Int) + (tseq.length : Int))).length =
        tseq.length := by
  cases right_side with
  | true =>
      obtain ⟨k, rfl⟩ := trim_right_shape ht
      obtain ⟨i, hfi⟩ := Option.isSome_iff_exists.mp
        (findIdx0_isSome_of_occ (occ_take_zero seq k))
      have hiocc := (findIdx0_eq_some hfi).1
      have hpos : (if true then pyFind seq (seq.take k)
          else pyRFind seq (seq.take k)) = ((i : Nat) : Int) := by
        rw [if_pos rfl]; exact pyFind_eq_some hfi
      have hlen := qual_slice_length hql hiocc
      refine ⟨i, hiocc, hpos, ?_, hlen⟩
      unfold trim_adaptor_w_qual
      rw [if_pos hql, ht]
      dsimp only
      rw [if_pos rfl, pyFind_eq_some hfi, if_pos hlen.symm]
  | false =>
      obtain ⟨k, hk, rfl⟩ := trim_left_shape ht
      obtain ⟨i, hfi⟩ := Option.isSome_iff_exists.mp
        (rfindIdx0_isSome_of_occ (occ_drop_self hk))
      have hiocc := (rfindIdx0_eq_some hfi).1
      have hpos : (if false then pyFind seq (seq.drop k)
          else pyRFind seq (seq.drop k)) = ((i : Nat) : Int) := by
        rw [if_neg (by simp)]; exact pyRFind_eq_some hfi
      have hlen := qual_slice_length hql hiocc
      refine ⟨i, hiocc, hpos, ?_, hlen⟩
      unfold trim_adaptor_w_qual
      rw [if_pos hql, ht]
      dsimp only
      simp only [Bool.false_eq_true, if_false]
      rw [pyRFind_eq_some hfi, if_pos hlen.symm]

/-- C1: for every read `seq`, every adaptor that occurs as an exact
contiguous substring of `seq` (adaptors range over the sequence alphabet,
so they contain no gap marker), and every error tolerance `num_errors ≥ 0`,
`trim_adaptor` with `right_side = true` returns exactly the prefix of
`seq` strictly before the leftmost occurrence of the adaptor, and the
result is the same for every aligner — the alignment fallback is never
consulted. -/
theorem C1_exact_fast_path (seq adaptor : List Char) (num_errors : Int)
    (hocc : adaptor <:+: seq) (hgap : gap_char ∉ adaptor)
    (he : 0 ≤ num_errors) :
    ∃ i : Nat, occursAt seq adaptor i ∧
      (∀ j, occursAt seq adaptor j → i ≤ j) ∧
      ∀ align : Aligner,
        trim_adaptor align seq adaptor num_errors true =
          some (seq.take i) := by
  obtain ⟨i₀, hi₀⟩ := (infix_iff_occ seq adaptor).mp hocc
  obtain ⟨i, hi⟩ := Option.isSome_iff_exists.mp (findIdx0_isSome_of_occ hi₀)
  obtain ⟨hiocc, hmin⟩ := findIdx0_eq_some hi
  refine ⟨i, hiocc, hmin, fun align => ?_⟩
  have hreg := trimRegions_of_occ align hocc
  have hm : countMatches (trimRegions align seq adaptor).1
      (trimRegions align seq adaptor).2 = some adaptor.length := by
    rw [hreg]; exact countMatches_self adaptor
  rw [trim_eval hm, if_neg (by omega), hreg]
  show some (remove_adaptor seq (removeGaps adaptor) true) = _
  rw [removeGaps_eq_self hgap]
  unfold remove_adaptor
  rw [if_pos rfl, pyFind_eq_some hi, pySlice_zero_nat (occursAt_le hiocc)]

/-- C1 witness: adaptor `"A"` occurs exactly in `"GAT"`. -/
theorem C1_exact_fast_path_witness :
    (['A'] <:+: ['G', 'A', 'T']) ∧ gap_char ∉ (['A'] : List Char) ∧
    (0 : Int) ≤ 0 ∧
    (∃ i : Nat, occursAt ['G', 'A', 'T'] ['A'] i ∧
      (∀ j, occursAt ['G', 'A', 'T'] ['A'] j → i ≤ j) ∧
      ∀ align : Aligner,
        trim_adaptor align ['G', 'A', 'T'] ['A'] 0 true =
          some (['G', 'A', 'T'].take i)) :=
  ⟨by decide, by decide, by decide,
    C1_exact_fast_path ['G', 'A', 'T'] ['A'] 0 (by decide) (by decide)
      (by decide)⟩

/-- C2: with `errors = len(adaptor) - matches` computed from the matched
regions, `trim_adaptor` takes the no-trim path — returning the input
sequence unchanged, for either side — exactly when `errors > num_errors`;
when `errors ≤ num_errors` (equality included) it proceeds to removal. -/
theorem C2_error_threshold (align : Aligner) (seq adaptor : List Char)
    (num_errors : Int) (m : Nat)
    (hm : countMatches (trimRegions align seq adaptor).1
      (trimRegions align seq adaptor).2 = some m) :
    (((adaptor.length : Int) - (m : Int)) > num_errors →
      trim_adaptor align seq adaptor num_errors true = some seq ∧
      trim_adaptor align seq adaptor num_errors false = some seq) ∧
    (((adaptor.length : Int) - (m : Int)) ≤ num_errors →
      ∀ right_side : Bool,
        trim_adaptor align seq adaptor num_errors right_side =
          some (remove_adaptor seq
            (removeGaps (trimRegions align seq adaptor).1) right_side)) := by
  constructor
  · intro hgt
    exact ⟨by rw [trim_eval hm, if_pos hgt],
      by rw [trim_eval hm, if_pos hgt]⟩
  · intro hle right_side
    rw [trim_eval hm, if_neg (by omega)]

/-- C2 witness: adaptor `"AA"` absent from `"TTT"` with the no-result
aligner gives `matches = 0`, `errors = 2`: above tolerance `1` the input
is returned unchanged; at tolerance `2` (equality) removal proceeds. -/
theorem C2_error_threshold_witness :
    (countMatches (trimRegions noAligner ['T', 'T', 'T'] ['A', 'A']).1
      (trimRegions noAligner ['T', 'T', 'T'] ['A', 'A']).2 = some 0) ∧
    ((((['A', 'A'] : List Char).length : Int) - ((0 : Nat) : Int)) > 1 →
      trim_adaptor noAligner ['T', 'T', 'T'] ['A', 'A'] 1 true =
        some ['T', 'T', 'T'] ∧
      trim_adaptor noAligner ['T', 'T', 'T'] ['A', 'A'] 1 false =
        some ['T', 'T', 'T']) :=
  ⟨by decide,
    fun h => (C2_error_threshold noAligner ['T', 'T', 'T'] ['A', 'A'] 1 0
      (by decide)).1 h⟩

/-- C3 counterexample: the claim quantifies over every `num_errors`,
including `num_errors ≥ len(adaptor)`.  With adaptor `"AA"` absent from
`"TTT"`, the no-result aligner, and `num_errors = 2 = len(adaptor)`, the
error count `2` is NOT above the tolerance, so removal proceeds with an
empty matched region and the whole read is discarded: the result is `""`,
not the unchanged input. -/
theorem C3_counterexample :
    ¬ (['A', 'A'] <:+: ['T', 'T', 'T']) ∧
    noAligner ['T', 'T', 'T'] ['A', 'A'] = none ∧
    trim_adaptor noAligner ['T', 'T', 'T'] ['A', 'A'] 2 true = some [] ∧
    some ([] : List Char) ≠ some ['T', 'T', 'T'] :=
  ⟨by decide, rfl, by decide, by decide⟩

/-- C3 (amended): if the adaptor has no exact occurrence in `seq` and the
aligner returns no alignment, both match regions are empty and the error
count is `len(adaptor) - 0`; provided `num_errors < len(adaptor)` — the
regime in which the acceptance rule rejects — the original sequence is
returned unchanged on either side.  (For `num_errors ≥ len(adaptor)`
removal proceeds and empties the read, per the counterexample.) -/
theorem C3_no_align_rejects (align : Aligner) (seq adaptor : List Char)
    (num_errors : Int) (hocc : ¬ adaptor <:+: seq)
    (halign : align seq adaptor = none)
    (hbound : num_errors < (adaptor.length : Int)) :
    trimRegions align seq adaptor = ([], []) ∧
    countMatches (trimRegions align seq adaptor).1
      (trimRegions align seq adaptor).2 = some 0 ∧
    ∀ right_side : Bool,
      trim_adaptor align seq adaptor num_errors right_side = some seq := by
  have hreg := trimRegions_of_no_align align hocc halign
  have hm : countMatches (trimRegions align seq adaptor).1
      (trimRegions align seq adaptor).2 = some 0 := by
    rw [hreg]; rfl
  refine ⟨hreg, hm, fun right_side => ?_⟩
  rw [trim_eval hm, if_pos (by omega)]

/-- C3 witness: `"AA"` absent from `"TTT"`, tolerance `1 < 2`. -/
theorem C3_no_align_rejects_witness :
    (¬ (['A', 'A'] <:+: ['T', 'T', 'T'])) ∧
    noAligner ['T', 'T', 'T'] ['A', 'A'] = none ∧
    (1 : Int) < ((['A', 'A'] : List Char).length : Int) ∧
    (trimRegions noAligner ['T', 'T', 'T'] ['A', 'A'] = ([], []) ∧
      countMatches (trimRegions noAligner ['T', 'T', 'T'] ['A', 'A']).1
        (trimRegions noAligner ['T', 'T', 'T'] ['A', 'A']).2 = some 0 ∧
      ∀ right_side : Bool,
        trim_adaptor noAligner ['T', 'T', 'T'] ['A', 'A'] 1 right_side =
          some ['T', 'T', 'T']) :=
  ⟨by decide, rfl, by decide,
    C3_no_align_rejects noAligner ['T', 'T', 'T'] ['A', 'A'] 1 (by decide)
      rfl (by decide)⟩

/-- C4: under the aligner guarantee that both aligned strings have equal
length, the read-side and adaptor-side regions have equal length in every
branch of `trim_adaptor`, so the match-count loop never raises an
out-of-bounds access (`countMatches` never returns `none` and
`trim_adaptor` always returns a result); moreover positions of the
adaptor-side region beyond the read-side region's length are never
compared: extending the adaptor side never changes the count. -/
theorem C4_regions_equal_length (align : Aligner)
    (hpad : AlignerPadsEqually align) (seq adaptor : List Char)
    (num_errors : Int) :
    (trimRegions align seq adaptor).1.length =
      (trimRegions align seq adaptor).2.length ∧
    (countMatches (trimRegions align seq adaptor).1
      (trimRegions align seq adaptor).2).isSome ∧
    (∀ right_side : Bool,
      (trim_adaptor align seq adaptor num_errors right_side).isSome) ∧
    (∀ sr ar extra : List Char, sr.length ≤ ar.length →
      countMatches sr (ar ++ extra) = countMatches sr ar) := by
  have hlen := trimRegions_length_eq align hpad seq adaptor
  refine ⟨hlen, (countMatches_isSome_iff _ _).mpr (le_of_eq hlen),
    fun right_side => ?_, countMatches_append_of_le⟩
  obtain ⟨t, ht⟩ := trim_isSome align hpad seq adaptor num_errors right_side
  rw [ht]; rfl

/-- C4 witness: an aligner returning a fixed equal-length alignment, on a
read where the fallback branch actually runs. -/
theorem C4_regions_equal_length_witness :
    AlignerPadsEqually
      (fun _ _ => some ⟨['T', '-', 'T'], ['T', 'A', 'A'], 0, 3⟩) ∧
    ((trimRegions (fun _ _ => some ⟨['T', '-', 'T'], ['T', 'A', 'A'], 0, 3⟩)
        ['T', 'T', 'T'] ['A', 'A']).1.length =
      (trimRegions (fun _ _ => some ⟨['T', '-', 'T'], ['T', 'A', 'A'], 0, 3⟩)
        ['T', 'T', 'T'] ['A', 'A']).2.length ∧
    (countMatches
      (trimRegions (fun _ _ => some ⟨['T', '-', 'T'], ['T', 'A', 'A'], 0, 3⟩)
        ['T', 'T', 'T'] ['A', 'A']).1
      (trimRegions (fun _ _ => some ⟨['T', '-', 'T'], ['T', 'A', 'A'], 0, 3⟩)
        ['T', 'T', 'T'] ['A', 'A']).2).isSome ∧
    (∀ right_side : Bool,
      (trim_adaptor (fun _ _ => some ⟨['T', '-', 'T'], ['T', 'A', 'A'], 0, 3⟩)
        ['T', 'T', 'T'] ['A', 'A'] 0 right_side).isSome) ∧
    (∀ sr ar extra : List Char, sr.length ≤ ar.length →
      countMatches sr (ar ++ extra) = countMatches sr ar)) :=
  ⟨fun _ _ r h => by cases h; rfl,
    C4_regions_equal_length _ (fun _ _ r h => by cases h; rfl)
      ['T', 'T', 'T'] ['A', 'A'] 0⟩

/-- C5: whenever trimming is accepted (`errors ≤ num_errors`), removal
uses the gap-stripped read-side region as a literal substring of `seq`:
with `right_side = true` the result is everything strictly before its
first occurrence, and with `right_side = false` everything strictly after
its last occurrence, past the end of the match. -/
theorem C5_removal_literal_substring (align : Aligner)
    (seq adaptor : List Char) (num_errors : Int) (m : Nat)
    (hm : countMatches (trimRegions align seq adaptor).1
      (trimRegions align seq adaptor).2 = some m)
    (hacc : ((adaptor.length : Int) - (m : Int)) ≤ num_errors)
    (hocc : removeGaps (trimRegions align seq adaptor).1 <:+: seq) :
    (∃ i, occursAt seq (removeGaps (trimRegions align seq adaptor).1) i ∧
      (∀ j, occursAt seq (removeGaps (trimRegions align seq adaptor).1) j →
        i ≤ j) ∧
      trim_adaptor align seq adaptor num_errors true =
        some (seq.take i)) ∧
    (∃ i, occursAt seq (removeGaps (trimRegions align seq adaptor).1) i ∧
      (∀ j, occursAt seq (removeGaps (trimRegions align seq adaptor).1) j →
        j ≤ i) ∧
      trim_adaptor align seq adaptor num_errors false =
        some (seq.drop
          (i + (removeGaps (trimRegions align seq adaptor).1).length))) := by
  have hex := (infix_iff_occ _ _).mp hocc
  constructor
  · obtain ⟨i, hio, hmin, hrm⟩ := remove_right_of_occ hex
    exact ⟨i, hio, hmin, by rw [trim_eval hm, if_neg (by omega), hrm]⟩
  · obtain ⟨i, hio, hmax, hrm⟩ := remove_left_of_occ hex
    exact ⟨i, hio, hmax, by rw [trim_eval hm, if_neg (by omega), hrm]⟩

/-- C5 witness: exact occurrence of `"A"` in `"GAT"`, accepted with zero
errors. -/
theorem C5_removal_literal_substring_witness :
    (countMatches (trimRegions noAligner ['G', 'A', 'T'] ['A']).1
      (trimRegions noAligner ['G', 'A', 'T'] ['A']).2 = some 1) ∧
    (((['A'] : List Char).length : Int) - ((1 : Nat) : Int)) ≤ 0 ∧
    (removeGaps (trimRegions noAligner ['G', 'A', 'T'] ['A']).1 <:+:
      ['G', 'A', 'T']) ∧
    ((∃ i, occursAt ['G', 'A', 'T']
        (removeGaps (trimRegions noAligner ['G', 'A', 'T'] ['A']).1) i ∧
      (∀ j, occursAt ['G', 'A', 'T']
        (removeGaps (trimRegions noAligner ['G', 'A', 'T'] ['A']).1) j →
          i ≤ j) ∧
      trim_adaptor noAligner ['G', 'A', 'T'] ['A'] 0 true =
        some (['G', 'A', 'T'].take i)) ∧
    (∃ i, occursAt ['G', 'A', 'T']
        (removeGaps (trimRegions noAligner ['G', 'A', 'T'] ['A']).1) i ∧
      (∀ j, occursAt ['G', 'A', 'T']
        (removeGaps (trimRegions noAligner ['G', 'A', 'T'] ['A']).1) j →
          j ≤ i) ∧
      trim_adaptor noAligner ['G', 'A', 'T'] ['A'] 0 false =
        some (['G', 'A', 'T'].drop
          (i + (removeGaps
            (trimRegions noAligner ['G', 'A', 'T'] ['A']).1).length)))) :=
  ⟨by decide, by decide, by decide,
    C5_removal_literal_substring noAligner ['G', 'A', 'T'] ['A'] 0 1
      (by decide) (by decide) (by decide)⟩

/-- C6: under the aligner's equal-length guarantee, if
`len(seq) = len(qual)` then `trim_adaptor_w_qual` returns the pair of the
`trim_adaptor` result `tseq` and the slice of `qual` at the offset
recovered by `find` (right side) or `rfind` (left side) of `tseq` in
`seq`, with `len(tseq) = len(tqual)`; a violated length precondition
fails fast (no result). -/
theorem C6_quality_roundtrip (align : Aligner)
    (hpad : AlignerPadsEqually align) (seq qual adaptor : List Char)
    (num_errors : Int) (right_side : Bool) :
    (seq.length ≠ qual.length →
      trim_adaptor_w_qual align seq qual adaptor num_errors right_side =
        none) ∧
    (seq.length = qual.length →
      ∃ tseq tqual,
        trim_adaptor align seq adaptor num_errors right_side = some tseq ∧
        trim_adaptor_w_qual align seq qual adaptor num_errors right_side =
          some (tseq, tqual) ∧
        (∃ i : Nat,
          (if right_side then pyFind seq tseq else pyRFind seq tseq) =
            (i : Int) ∧
          tqual = pySlice qual (i : Int) ((i : Int) + (tseq.length : Int))) ∧
        tseq.length = tqual.length) := by
  constructor
  · intro hne
    unfold trim_adaptor_w_qual
    rw [if_neg hne]
  · intro hql
    obtain ⟨tseq, ht⟩ := trim_isSome align hpad seq adaptor num_errors
      right_side
    obtain ⟨i, hio, hpos, hwq, hlen⟩ := wqual_eval hql ht
    exact ⟨tseq, _, ht, hwq, ⟨i, hpos, rfl⟩, hlen.symm⟩

/-- C6 witness: `"GAT"` with qualities `"xyz"`, adaptor `"A"`. -/
theorem C6_quality_roundtrip_witness :
    AlignerPadsEqually noAligner ∧
    ((['G', 'A', 'T'] : List Char).length = (['x', 'y', 'z'] : List Char).length →
      ∃ tseq tqual,
        trim_adaptor noAligner ['G', 'A', 'T'] ['A'] 0 true = some tseq ∧
        trim_adaptor_w_qual noAligner ['G', 'A', 'T'] ['x', 'y', 'z'] ['A']
          0 true = some (tseq, tqual) ∧
        (∃ i : Nat,
          (if true then pyFind ['G', 'A', 'T'] tseq
            else pyRFind ['G', 'A', 'T'] tseq) = (i : Int) ∧
          tqual = pySlice ['x', 'y', 'z'] (i : Int)
            ((i : Int) + (tseq.length : Int))) ∧
        tseq.length = tqual.length) :=
  ⟨fun _ _ _ h => Option.noConfusion h,
    (C6_quality_roundtrip noAligner (fun _ _ _ h => Option.noConfusion h)
      ['G', 'A', 'T'] ['x', 'y', 'z'] ['A'] 0 true).2⟩

/-- C7: the gap-stripped read-side region is a contiguous substring of
`seq` (given the aligner's guarantee that stripping gaps from the aligned
read restores the read, and a read over the sequence alphabet, i.e. free
of the gap marker), so `find` locates it (`pyFind ≥ 0`); the result of
`trim_adaptor` with `right_side = true` is a prefix of `seq`, with
`right_side = false` a suffix, and in both cases never longer than the
input. -/
theorem C7_result_within_input (align : Aligner)
    (hpad : AlignerPadsEqually align) (hres : AlignerRestoresSeq align)
    (seq adaptor : List Char) (num_errors : Int)
    (hseq : gap_char ∉ seq) :
    removeGaps (trimRegions align seq adaptor).1 <:+: seq ∧
    0 ≤ pyFind seq (removeGaps (trimRegions align seq adaptor).1) ∧
    (∃ t, trim_adaptor align seq adaptor num_errors true = some t ∧
      t <+: seq ∧ t.length ≤ seq.length) ∧
    (∃ t, trim_adaptor align seq adaptor num_errors false = some t ∧
      t <:+ seq ∧ t.length ≤ seq.length) := by
  have hinf := removeGaps_region_infix align hres adaptor hseq
  refine ⟨hinf, pyFind_nonneg_iff.mpr hinf, ?_, ?_⟩
  · obtain ⟨t, ht⟩ := trim_isSome align hpad seq adaptor num_errors true
    obtain ⟨k, rfl⟩ := trim_right_shape ht
    refine ⟨_, ht, ⟨seq.drop k, List.take_append_drop k seq⟩, ?_⟩
    rw [List.length_take]; omega
  · obtain ⟨t, ht⟩ := trim_isSome align hpad seq adaptor num_errors false
    obtain ⟨k, hk, rfl⟩ := trim_left_shape ht
    refine ⟨_, ht, ⟨seq.take k, List.take_append_drop k seq⟩, ?_⟩
    rw [List.length_drop]; omega

/-- C7 witness: gap-free read `"GAT"`, adaptor `"A"`, trivial aligner. -/
theorem C7_result_within_input_witness :
    AlignerPadsEqually noAligner ∧ AlignerRestoresSeq noAligner ∧
    gap_char ∉ (['G', 'A', 'T'] : List Char) ∧
    (removeGaps (trimRegions noAligner ['G', 'A', 'T'] ['A']).1 <:+:
        ['G', 'A', 'T'] ∧
      0 ≤ pyFind ['G', 'A', 'T']
        (removeGaps (trimRegions noAligner ['G', 'A', 'T'] ['A']).1) ∧
      (∃ t, trim_adaptor noAligner ['G', 'A', 'T'] ['A'] 0 true = some t ∧
        t <+: ['G', 'A', 'T'] ∧ t.length ≤ (['G', 'A', 'T'] : List Char).length) ∧
      (∃ t, trim_adaptor noAligner ['G', 'A', 'T'] ['A'] 0 false = some t ∧
        t <:+ ['G', 'A', 'T'] ∧ t.length ≤ (['G', 'A', 'T'] : List Char).length)) :=
  ⟨fun _ _ _ h => Option.noConfusion h, fun _ _ _ h => Option.noConfusion h, by decide,
    C7_result_within_input noAligner (fun _ _ _ h => Option.noConfusion h)
      (fun _ _ _ h => Option.noConfusion h) ['G', 'A', 'T'] ['A'] 0 (by decide)⟩

/-- C8: the batch driver writes a record — identifier kept, sequence
replaced by the trimmed sequence, quality annotations cleared — if and
only if the trimmed length `L` satisfies `0 < L < originalLength`;
records trimmed to zero length or left at full length produce no output
record. -/
theorem C8_driver_emits_iff (align : Aligner)
    (hpad : AlignerPadsEqually align) (adaptor : List Char)
    (num_errors : Int) (rec : FastqRecord) :
    ∃ t, trim_adaptor align rec.recSeq adaptor num_errors true = some t ∧
      ((0 < t.length ∧ t.length < rec.recSeq.length) →
        processRecord align adaptor num_errors rec =
          some { recId := rec.recId, recSeq := t, quals := none }) ∧
      (¬ (0 < t.length ∧ t.length < rec.recSeq.length) →
        processRecord align adaptor num_errors rec = none) := by
  obtain ⟨t, ht⟩ := trim_isSome align hpad rec.recSeq adaptor num_errors true
  refine ⟨t, ht, fun hcond => ?_, fun hcond => ?_⟩
  · unfold processRecord
    rw [ht]
    dsimp only
    rw [if_pos hcond]
  · unfold processRecord
    rw [ht]
    dsimp only
    rw [if_neg hcond]

/-- C8 witness: record `("id", "GAT")` with adaptor `"A"`: trimmed to
`"G"`, written with qualities cleared. -/
theorem C8_driver_emits_iff_witness :
    AlignerPadsEqually noAligner ∧
    (∃ t, trim_adaptor noAligner
        (FastqRecord.mk ['i', 'd'] ['G', 'A', 'T'] (some ['x', 'y', 'z'])).recSeq
        ['A'] 0 true = some t ∧
      ((0 < t.length ∧ t.length <
          (FastqRecord.mk ['i', 'd'] ['G', 'A', 'T']
            (some ['x', 'y', 'z'])).recSeq.length) →
        processRecord noAligner ['A'] 0
          (FastqRecord.mk ['i', 'd'] ['G', 'A', 'T'] (some ['x', 'y', 'z'])) =
          some { recId := ['i', 'd'], recSeq := t, quals := none }) ∧
      (¬ (0 < t.length ∧ t.length <
          (FastqRecord.mk ['i', 'd'] ['G', 'A', 'T']
            (some ['x', 'y', 'z'])).recSeq.length) →
        processRecord noAligner ['A'] 0
          (FastqRecord.mk ['i', 'd'] ['G', 'A', 'T'] (some ['x', 'y', 'z'])) =
          none)) :=
  ⟨fun _ _ _ h => Option.noConfusion h,
    C8_driver_emits_iff noAligner (fun _ _ _ h => Option.noConfusion h) ['A'] 0
      (FastqRecord.mk ['i', 'd'] ['G', 'A', 'T'] (some ['x', 'y', 'z']))⟩

/-- C10: for every sequence and every `num_errors ≥ 0`, trimming with the
empty adaptor returns the empty string on both sides: the empty adaptor
is found at offset 0 with zero errors, and removal with the empty literal
resolves to offset 0 under `find` (empty prefix kept) and to
end-of-string under `rfind` (empty suffix kept), discarding the whole
read. -/
theorem C10_empty_adaptor_discards (align : Aligner) (seq : List Char)
    (num_errors : Int) (he : 0 ≤ num_errors) :
    pyFind seq [] = 0 ∧ pyRFind seq [] = (seq.length : Int) ∧
    trim_adaptor align seq [] num_errors true = some [] ∧
    trim_adaptor align seq [] num_errors false = some [] := by
  have hocc0 : occursAt seq [] 0 := ⟨by simp, ⟨seq, by simp⟩⟩
  have hoccL : occursAt seq [] seq.length :=
    ⟨by simp, ⟨[], by simp [List.drop_length]⟩⟩
  obtain ⟨i, hi⟩ := Option.isSome_iff_exists.mp (findIdx0_isSome_of_occ hocc0)
  obtain ⟨hiocc, hmin⟩ := findIdx0_eq_some hi
  have hi0 : i = 0 := Nat.le_zero.mp (hmin 0 hocc0)
  subst hi0
  obtain ⟨j, hj⟩ := Option.isSome_iff_exists.mp
    (rfindIdx0_isSome_of_occ hocc0)
  obtain ⟨hjocc, hmax⟩ := rfindIdx0_eq_some hj
  have hjL : j = seq.length := le_antisymm (occursAt_le hjocc)
    (hmax seq.length hoccL)
  subst hjL
  have hpf : pyFind seq [] = 0 := pyFind_eq_some hi
  have hpr : pyRFind seq [] = (seq.length : Int) := pyRFind_eq_some hj
  have hinf : ([] : List Char) <:+: seq := ⟨[], seq, by simp⟩
  have hreg := trimRegions_of_occ align hinf
  have hm : countMatches (trimRegions align seq ([] : List Char)).1
      (trimRegions align seq ([] : List Char)).2 = some 0 := by
    rw [hreg]; rfl
  refine ⟨hpf, hpr, ?_, ?_⟩
  · rw [trim_eval hm, if_neg (by simp; omega), hreg]
    show some (remove_adaptor seq (removeGaps []) true) = _
    unfold remove_adaptor removeGaps
    rw [if_pos rfl]
    simp only [List.filter_nil]
    rw [hpf, pySlice_zero_left, sliceNorm_zero, List.take_zero]
  · rw [trim_eval hm, if_neg (by simp; omega), hreg]
    show some (remove_adaptor seq (removeGaps []) false) = _
    unfold remove_adaptor removeGaps
    rw [if_neg (by simp)]
    simp only [List.filter_nil, List.length_nil]
    rw [hpr]
    have : (seq.length : Int) + ((0 : Nat) : Int) = (seq.length : Int) := by
      push_cast; ring
    simp only [Nat.cast_zero, add_zero]
    rw [pySlice_right_length, sliceNorm_length, List.drop_length]

/-- C10 witness: the read `"GAT"` is fully discarded for tolerance 0. -/
theorem C10_empty_adaptor_discards_witness :
    (0 : Int) ≤ 0 ∧
    (pyFind ['G', 'A', 'T'] [] = 0 ∧
      pyRFind ['G', 'A', 'T'] [] = ((['G', 'A', 'T'] : List Char).length : Int) ∧
      trim_adaptor noAligner ['G', 'A', 'T'] [] 0 true = some [] ∧
      trim_adaptor noAligner ['G', 'A', 'T'] [] 0 false = some []) :=
  ⟨by decide, C10_empty_adaptor_discards noAligner ['G', 'A', 'T'] 0 (by decide)⟩

end AdaptorTrim
